import Mathlib

/-!
Verification of the serverless remote-code execution handler (`app.py`).

The embedding models:
* Python values (`PyVal`) as returned by the untrusted entry point, including
  non-JSON-native nodes (sets / array-likes, arbitrary objects);
* the sanitizer `to_json`, i.e. `loads(dumps(v, default=set_default))`;
* the process environment as an insertion-ordered association list (`Dict`)
  with Python `dict.update` semantics;
* the `NewEnv` context manager (`enterEnv` / environment restore / scratch
  directory cleanup) and the full `handler` with its outer `except` clause,
  parameterised by a fetch oracle and a compile oracle giving the semantics
  of the fetched script.
-/

namespace App

/-- Python exception, identified by its class name (`type(e).__name__`) and
its message (`str(e)`). -/
structure PyExc where
  ty : String
  msg : String
deriving DecidableEq, Repr

/-- Python values relevant to the sanitizer: JSON-native nodes, plus the
non-native nodes handled by `set_default` (set-like / array-like containers,
and arbitrary objects whose `str()` either yields a string or raises). -/
inductive PyVal where
  | none
  | bool (b : Bool)
  | int (n : Int)
  | str (s : String)
  | list (xs : List PyVal)
  | dict (kvs : List (PyVal × PyVal))
  | set (xs : List PyVal)
  | obj (strRepr : Option String)

/-- Key coercion performed by `json.dumps` on mapping keys: `str` keys kept,
`int` / `bool` / `None` keys rendered; any other key type raises `TypeError`. -/
def keyToStr : PyVal → Except PyExc String
  | .str s => .ok s
  | .int n => .ok (toString n)
  | .bool true => .ok "true"
  | .bool false => .ok "false"
  | .none => .ok "null"
  | _ => .error { ty := "TypeError", msg := "keys must be str, int, float, bool or None" }

/-- Python `d[k] = v` on an insertion-ordered dictionary: replace the value
in place when the key exists, else append the entry. -/
def dictSet {α : Type} (d : List (String × α)) (k : String) (v : α) : List (String × α) :=
  if d.any (fun p => p.1 == k) then d.map (fun p => if p.1 == k then (k, v) else p)
  else d ++ [(k, v)]

/-- Python `d.update(entries)` (and Python dict construction from a pair
sequence, as `json.loads` does for objects): insert entry by entry in
order, so a colliding key keeps its first position and its last value. -/
def dictUpdate {α : Type} (d entries : List (String × α)) : List (String × α) :=
  entries.foldl (fun acc kv => dictSet acc kv.1 kv.2) d

mutual

/-- The sanitizer `to_json`: semantics of `loads(dumps(v, default=set_default))`.
Native JSON nodes serialize in place; set-like containers become lists
(`set_default`'s first rule); any other object falls back to `str(obj)`,
and a failing `str` raises `TypeError` (`raise TypeError from e`). -/
def to_json : PyVal → Except PyExc PyVal
  | .none => .ok .none
  | .bool b => .ok (.bool b)
  | .int n => .ok (.int n)
  | .str s => .ok (.str s)
  | .list xs => (jsonArr xs).map PyVal.list
  | .dict kvs =>
    (jsonObj kvs).map (fun l => PyVal.dict ((dictUpdate [] l).map (fun p => (PyVal.str p.1, p.2))))
  | .set xs => (jsonArr xs).map PyVal.list
  | .obj (some s) => .ok (.str s)
  | .obj Option.none => .error { ty := "TypeError", msg := "" }

/-- Serialization of an array's elements, left to right, stopping at the
first failure. -/
def jsonArr : List PyVal → Except PyExc (List PyVal)
  | [] => .ok []
  | x :: xs => do
    let y ← to_json x
    let ys ← jsonArr xs
    .ok (y :: ys)

/-- Serialization of a mapping's entries: each key is coerced to a string,
each value is serialized recursively. -/
def jsonObj : List (PyVal × PyVal) → Except PyExc (List (String × PyVal))
  | [] => .ok []
  | (k, v) :: rest => do
    let ks ← keyToStr k
    let y ← to_json v
    let ys ← jsonObj rest
    .ok ((ks, y) :: ys)

end

/-- String key extraction: `some s` exactly when the node is a string. -/
def strKey : PyVal → Option String
  | .str s => some s
  | _ => Option.none

mutual

/-- A value composed solely of JSON primitives: null, boolean, number,
string, ordered sequence, mapping with (distinct) string keys. -/
def isJsonSafe : PyVal → Bool
  | .none => true
  | .bool _ => true
  | .int _ => true
  | .str _ => true
  | .list xs => jsonSafeList xs
  | .dict kvs => jsonSafeKVs kvs
  | .set _ => false
  | .obj _ => false

/-- Every element of the sequence is composed of JSON primitives. -/
def jsonSafeList : List PyVal → Bool
  | [] => true
  | x :: xs => isJsonSafe x && jsonSafeList xs

/-- Every entry of the mapping has a string key, keys are distinct, and every
value is composed of JSON primitives. -/
def jsonSafeKVs : List (PyVal × PyVal) → Bool
  | [] => true
  | (k, v) :: rest =>
    (strKey k).isSome && rest.all (fun p => strKey p.1 != strKey k)
      && isJsonSafe v && jsonSafeKVs rest

end

/-! Environment model: the process environment is an insertion-ordered
association list with Python `dict` semantics. -/

/-- An insertion-ordered string-to-string dictionary (`os.environ`). -/
abbrev Dict := List (String × String)

/-- Uppercasing of a character list, modelling Python `str.upper()`. -/
def upper (l : List Char) : List Char := l.map Char.toUpper

/-- Python `pat.upper() in key.upper()` (case-insensitive substring test). -/
def containsPat (key pat : String) : Bool :=
  decide (upper pat.toList <:+: upper key.toList)

/-- The fixed exclusion substrings of `NewEnv.__enter__`. -/
def excludePatterns : List String := ["AWS", "KEY"]

/-- The filter of `NewEnv.__enter__`: a key survives when no exclusion
pattern occurs case-insensitively inside it. -/
def envKeyAllowed (key : String) : Bool :=
  excludePatterns.all (fun pat => ! containsPat key pat)

/-- The dict comprehension of `NewEnv.__enter__`: entries of the snapshot
whose key passes the exclusion filter, in snapshot order. -/
def filteredEnv (snapshot : Dict) : Dict :=
  snapshot.filter (fun kv => envKeyAllowed kv.1)

/-- The claim's exclusion condition, stated from the spec's words: the key
contains the substring `"aws"` or `"key"` in some case combination. -/
def specExcludedKey (k : String) : Prop :=
  ∃ m, m <:+: k.toList ∧ (upper m = "AWS".toList ∨ upper m = "KEY".toList)

/-- `NewEnv.__enter__`: `environ.clear()` then `environ.update(filtered)`. -/
def enterEnv (snapshot : Dict) : Dict :=
  dictUpdate [] (filteredEnv snapshot)

/-- The environment-restore half of `NewEnv.__exit__`: `environ.clear()`
then `environ.update(self.orig_environ)`. -/
def restoreEnv (snapshot : Dict) : Dict :=
  dictUpdate [] snapshot

/-! Scratch directory model and `NewEnv.__exit__` cleanup. -/

/-- An entry of the scratch directory `/tmp`. A file carries the OS error
its deletion would raise (`none` when `remove` succeeds); a directory
records whether `rmtree` can actually delete it. -/
inductive TmpEntry where
  | file (name : String) (removeErr : Option PyExc)
  | dir (name : String) (removable : Bool)
deriving DecidableEq, Repr

/-- The cleanup loop of `NewEnv.__exit__`: `remove(item.path)` for files
(raising on failure, which aborts the loop), `rmtree(item.path,
ignore_errors=True)` for directories (never raising; an undeletable
directory silently stays). Returns the raised exception, if any, and the
remaining entries. -/
def cleanupTmp : List TmpEntry → Option PyExc × List TmpEntry
  | [] => (Option.none, [])
  | .file n err :: rest =>
    match err with
    | Option.none => cleanupTmp rest
    | some e => (some e, .file n (some e) :: rest)
  | .dir n removable :: rest =>
    if removable then cleanupTmp rest
    else
      let (r, rem) := cleanupTmp rest
      (r, .dir n false :: rem)

/-- Every file entry of the scratch directory can be removed without an
error (directories are irrelevant: their errors are ignored). -/
def filesRemovable (l : List TmpEntry) : Bool :=
  l.all fun ent =>
    match ent with
    | .file _ err => err.isNone
    | .dir _ _ => true

/-- Every directory entry of the scratch directory can actually be
deleted. -/
def dirsRemovable (l : List TmpEntry) : Bool :=
  l.all fun ent =>
    match ent with
    | .file _ _ => true
    | .dir _ b => b

/-! Handler model. -/

/-- Process-wide mutable state touched by an invocation: the live
environment mapping and the scratch directory contents. -/
structure St where
  env : Dict
  tmp : List TmpEntry

/-- Behaviour of a fetched script, as produced by the compile oracle:
the effect of `exec(code, g)` (which may mutate process state and may
raise), whether the namespace defines `main`, and the behaviour of
`main(inputs)` (which may mutate process state and either returns a value
or raises). -/
structure Script where
  load : St → Option PyExc × St
  hasMain : Bool
  run : PyVal → St → Except PyExc PyVal × St

/-- The invocation event: presence/absence of the `inputs` and `url` keys,
and the optional `headers` mapping. -/
structure Event where
  inputs : Option PyVal
  url : Option String
  headers : Option Dict

/-- The host invocation context. -/
structure Context where
  aws_request_id : String

/-- The error body of a failure response. -/
structure ErrorBody where
  errorMessage : String
  errorType : String
  stackTrace : List String
  requestId : String
deriving DecidableEq, Repr

/-- The handler's response: `{statusCode: 200, body}` on success or
`{statusCode: 400, body: {errorMessage, errorType, stackTrace, requestId}}`
on failure. -/
inductive Response where
  | success (statusCode : Nat) (body : PyVal)
  | failure (statusCode : Nat) (body : ErrorBody)

/-- Default headers used when the event carries none:
`{"Authorization": f"Token {api_key}"}`. -/
def defaultHeaders (apiKey : String) : Dict :=
  [("Authorization", "Token " ++ apiKey)]

/-- Python `KeyError(k)`: `str(e)` is the repr of the missing key. -/
def keyError (k : String) : PyExc :=
  { ty := "KeyError", msg := "'" ++ k ++ "'" }

/-- Python `AssertionError` with the assert's message. -/
def assertionError (m : String) : PyExc :=
  { ty := "AssertionError", msg := m }

/-- The message of the failed-fetch assert:
`f"Failed to fetch app code: {str(code)}\n"`. -/
def fetchFailMsg (code : String) : String :=
  "Failed to fetch app code: " ++ code ++ "\n"

/-- The message of the missing-entry-point assert. -/
def mainMissingMsg : String := "'def main(inputs):' is not defined"

/-- The HTTP response of the fetch oracle: status and decoded body text. -/
structure HttpResponse where
  status : Nat
  data : String

/-- The body of the `with NewEnv():` block, lines (1)-(4) of `handler`:
read `inputs` and `url` (raising `KeyError` when absent), fetch the code,
assert status 200, `exec` the code, assert `main` is defined, run
`main(inputs)`, and sanitize the outputs. -/
def innerBody (fetchFn : String → Dict → HttpResponse) (compile : String → Script)
    (apiKey : String) (event : Event) (st : St) : Except PyExc PyVal × St :=
  match event.inputs with
  | Option.none => (.error (keyError "inputs"), st)
  | some inputs =>
    match event.url with
    | Option.none => (.error (keyError "url"), st)
    | some url =>
      let headers := event.headers.getD (defaultHeaders apiKey)
      let response := fetchFn url headers
      let code := response.data
      if response.status ≠ 200 then (.error (assertionError (fetchFailMsg code)), st)
      else
        let script := compile code
        match script.load st with
        | (some e, st') => (.error e, st')
        | (Option.none, st') =>
          if ¬ script.hasMain then (.error (assertionError mainMissingMsg), st')
          else
            match script.run inputs st' with
            | (.error e, st2) => (.error e, st2)
            | (.ok outputs, st2) =>
              match to_json outputs with
              | .error e => (.error e, st2)
              | .ok safe => (.ok safe, st2)

/-- Python `with NewEnv(): body` semantics: `__init__` snapshots the
environment, `__enter__` installs the filtered environment, the body runs,
and `__exit__` runs unconditionally — restoring the environment first and
then cleaning the scratch directory. An exception raised by the cleanup
replaces the body's outcome (as in CPython, where an exception raised in
`__exit__` supersedes the in-flight one). -/
def withNewEnv (body : St → Except PyExc PyVal × St) (st : St) :
    Except PyExc PyVal × St :=
  let snapshot := st.env
  let st1 : St := { st with env := enterEnv snapshot }
  let (res, st2) := body st1
  let st3 : St := { st2 with env := restoreEnv snapshot }
  match cleanupTmp st3.tmp with
  | (some e, remaining) => (.error e, { st3 with tmp := remaining })
  | (Option.none, remaining) => (res, { st3 with tmp := remaining })

/-- The full `handler`: the `with NewEnv():` block wrapped in
`try ... except Exception as e`, mapping any exception to the structured
failure response with `statusCode` 400, empty `stackTrace` and the host
request id. -/
def handler (fetchFn : String → Dict → HttpResponse) (compile : String → Script)
    (apiKey : String) (event : Event) (ctx : Context) (st : St) : Response × St :=
  match withNewEnv (innerBody fetchFn compile apiKey event) st with
  | (.ok body, st') => (.success 200 body, st')
  | (.error e, st') =>
    (.failure 400
      { errorMessage := e.msg, errorType := e.ty, stackTrace := [],
        requestId := ctx.aws_request_id }, st')

/-- Shorthand for the process state right after `NewEnv.__enter__`. -/
def entered (st : St) : St := { st with env := enterEnv st.env }

/-! Generic lemmas about the insertion-ordered dictionary operations. -/

theorem dictSet_of_not_mem {α : Type} (d : List (String × α)) (k : String) (v : α)
    (h : ∀ p ∈ d, p.1 ≠ k) : dictSet d k v = d ++ [(k, v)] := by
  have hc : (d.any fun p => p.1 == k) = false := by
    simp only [List.any_eq_false, beq_iff_eq]
    exact h
  simp [dictSet, hc]

theorem dictUpdate_nil_of_nodup {α : Type} (l : List (String × α))
    (h : (l.map Prod.fst).Nodup) : dictUpdate [] l = l := by
  suffices H : ∀ (entries d : List (String × α)),
      (entries.map Prod.fst).Nodup → (∀ p ∈ d, ∀ q ∈ entries, p.1 ≠ q.1) →
      dictUpdate d entries = d ++ entries by
    simpa using H l [] h (by simp)
  intro entries
  induction entries with
  | nil => intro d _ _; simp [dictUpdate]
  | cons kv rest ih =>
    intro d hnd hdisj
    obtain ⟨k, v⟩ := kv
    have hset : dictSet d k v = d ++ [(k, v)] :=
      dictSet_of_not_mem d k v (fun p hp => hdisj p hp (k, v) (by simp))
    rw [List.map_cons] at hnd
    have hcons := List.nodup_cons.mp hnd
    have hnd' : (rest.map Prod.fst).Nodup := hcons.2
    have hk : ∀ q ∈ rest, k ≠ q.1 := by
      intro q hq hkq
      exact hcons.1 (by rw [hkq]; exact List.mem_map.mpr ⟨q, hq, rfl⟩)
    have : dictUpdate (d ++ [(k, v)]) rest = (d ++ [(k, v)]) ++ rest := by
      apply ih (d ++ [(k, v)]) hnd'
      intro p hp q hq
      rcases List.mem_append.mp hp with hp | hp
      · exact hdisj p hp q (List.mem_cons_of_mem _ hq)
      · simp only [List.mem_singleton] at hp
        subst hp
        exact hk q hq
    calc dictUpdate d ((k, v) :: rest)
        = dictUpdate (dictSet d k v) rest := rfl
      _ = dictUpdate (d ++ [(k, v)]) rest := by rw [hset]
      _ = (d ++ [(k, v)]) ++ rest := this
      _ = d ++ ((k, v) :: rest) := by simp

theorem dictSet_value_mem {α : Type} (d : List (String × α)) (k : String) (v : α)
    (Q : α → Prop) (hd : ∀ p ∈ d, Q p.2) (hv : Q v) :
    ∀ p ∈ dictSet d k v, Q p.2 := by
  unfold dictSet
  by_cases hc : d.any (fun p => p.1 == k)
  · rw [if_pos hc]
    intro p hp
    obtain ⟨q, hq, hqe⟩ := List.mem_map.mp hp
    by_cases hqk : q.1 == k
    · rw [if_pos hqk] at hqe; subst hqe; exact hv
    · rw [if_neg hqk] at hqe; subst hqe; exact hd q hq
  · rw [if_neg hc]
    intro p hp
    rcases List.mem_append.mp hp with hp | hp
    · exact hd p hp
    · simp only [List.mem_singleton] at hp; subst hp; exact hv

theorem dictUpdate_value_mem {α : Type} (entries d : List (String × α))
    (Q : α → Prop) (hd : ∀ p ∈ d, Q p.2) (he : ∀ p ∈ entries, Q p.2) :
    ∀ p ∈ dictUpdate d entries, Q p.2 := by
  induction entries generalizing d with
  | nil => simpa [dictUpdate] using hd
  | cons kv rest ih =>
    have hset : ∀ p ∈ dictSet d kv.1 kv.2, Q p.2 :=
      dictSet_value_mem d kv.1 kv.2 Q hd (he kv (by simp))
    exact ih (dictSet d kv.1 kv.2) hset (fun p hp => he p (List.mem_cons_of_mem _ hp))

theorem dictSet_keys_nodup {α : Type} (d : List (String × α)) (k : String) (v : α)
    (h : (d.map Prod.fst).Nodup) : ((dictSet d k v).map Prod.fst).Nodup := by
  unfold dictSet
  by_cases hc : d.any (fun p => p.1 == k)
  · rw [if_pos hc]
    have : (d.map (fun p => if p.1 == k then (k, v) else p)).map Prod.fst = d.map Prod.fst := by
      rw [List.map_map]
      apply List.map_congr_left
      intro p _
      simp only [Function.comp_apply]
      by_cases hpk : p.1 = k
      · rw [if_pos (beq_iff_eq.mpr hpk)]
        exact hpk.symm
      · rw [if_neg (by simpa using hpk)]
    rw [this]; exact h
  · rw [if_neg hc]
    have hc' : ∀ p ∈ d, p.1 ≠ k := by
      rw [Bool.not_eq_true, List.any_eq_false] at hc
      intro p hp
      simpa using hc p hp
    simp only [List.map_append, List.map_cons, List.map_nil]
    rw [List.nodup_append]
    refine ⟨h, List.nodup_singleton k, ?_⟩
    intro a ha hb
    simp only [List.mem_singleton] at hb
    subst hb
    obtain ⟨q, hq, hqe⟩ := List.mem_map.mp ha
    exact hc' q hq hqe

theorem dictUpdate_keys_nodup {α : Type} (entries d : List (String × α))
    (h : (d.map Prod.fst).Nodup) : ((dictUpdate d entries).map Prod.fst).Nodup := by
  induction entries generalizing d with
  | nil => simpa [dictUpdate] using h
  | cons kv rest ih => exact ih (dictSet d kv.1 kv.2) (dictSet_keys_nodup d kv.1 kv.2 h)

/-! Reduction helpers for `Except`. -/

@[simp] theorem ebind_error {α β : Type} (e : PyExc) (f : α → Except PyExc β) :
    (Except.error e : Except PyExc α) >>= f = .error e := rfl

@[simp] theorem ebind_ok {α β : Type} (a : α) (f : α → Except PyExc β) :
    (Except.ok a : Except PyExc α) >>= f = f a := rfl

@[simp] theorem emap_error {α β : Type} (g : α → β) (e : PyExc) :
    Except.map g (Except.error e : Except PyExc α) = .error e := rfl

@[simp] theorem emap_ok {α β : Type} (g : α → β) (a : α) :
    Except.map g (Except.ok a : Except PyExc α) = .ok (g a) := rfl

/-! Sanitizer lemmas. -/

theorem keyToStr_ty (k : PyVal) (e : PyExc) (h : keyToStr k = .error e) :
    e.ty = "TypeError" := by
  cases k with
  | none => exact absurd h (by simp [keyToStr])
  | bool b => cases b <;> exact absurd h (by simp [keyToStr])
  | int n => exact absurd h (by simp [keyToStr])
  | str s => exact absurd h (by simp [keyToStr])
  | list xs => simp [keyToStr] at h; rw [← h]
  | dict kvs => simp [keyToStr] at h; rw [← h]
  | set xs => simp [keyToStr] at h; rw [← h]
  | obj o => simp [keyToStr] at h; rw [← h]

theorem jsonSafeKVs_map_ofStr (l : List (String × PyVal))
    (hvals : ∀ p ∈ l, isJsonSafe p.2 = true)
    (hkeys : (l.map Prod.fst).Nodup) :
    jsonSafeKVs (l.map (fun p => (PyVal.str p.1, p.2))) = true := by
  induction l with
  | nil => rfl
  | cons kv rest ih =>
    obtain ⟨k, v⟩ := kv
    rw [List.map_cons] at hkeys
    have hcons := List.nodup_cons.mp hkeys
    have hrest := ih (fun p hp => hvals p (List.mem_cons_of_mem _ hp)) hcons.2
    have hall : (rest.map (fun p => (PyVal.str p.1, p.2))).all
        (fun p => strKey p.1 != strKey (PyVal.str k)) = true := by
      rw [List.all_eq_true]
      intro p hp
      obtain ⟨q, hq, rfl⟩ := List.mem_map.mp hp
      have hqk : q.1 ≠ k := by
        intro hqk
        exact hcons.1 (by rw [← hqk]; exact List.mem_map.mpr ⟨q, hq, rfl⟩)
      simp [strKey, hqk]
    have hv := hvals (k, v) (by simp)
    simp only [List.map_cons, jsonSafeKVs, Bool.and_eq_true]
    exact ⟨⟨⟨by simp [strKey], hall⟩, hv⟩, hrest⟩

/-- Strong-induction core for the sanitizer's guarantee: every error raised
anywhere in the recursion is a `TypeError`, and every produced value is
composed solely of JSON primitives. -/
theorem json_shape_aux :
    ∀ n : Nat,
      (∀ v : PyVal, sizeOf v < n →
        (∀ e, to_json v = .error e → e.ty = "TypeError")
        ∧ (∀ j, to_json v = .ok j → isJsonSafe j = true))
      ∧ (∀ xs : List PyVal, sizeOf xs < n →
        (∀ e, jsonArr xs = .error e → e.ty = "TypeError")
        ∧ (∀ js, jsonArr xs = .ok js → jsonSafeList js = true))
      ∧ (∀ kvs : List (PyVal × PyVal), sizeOf kvs < n →
        (∀ e, jsonObj kvs = .error e → e.ty = "TypeError")
        ∧ (∀ l, jsonObj kvs = .ok l → ∀ p ∈ l, isJsonSafe p.2 = true)) := by
  intro n
  induction n with
  | zero =>
    exact ⟨fun v h => absurd h (Nat.not_lt_zero _),
           fun xs h => absurd h (Nat.not_lt_zero _),
           fun kvs h => absurd h (Nat.not_lt_zero _)⟩
  | succ n ih =>
    obtain ⟨ihv, iharr, ihobj⟩ := ih
    refine ⟨?_, ?_, ?_⟩
    · intro v hv
      cases v with
      | none =>
        refine ⟨fun e h => ?_, fun j h => ?_⟩
        · simp [to_json] at h
        · simp [to_json] at h; rw [← h]; rfl
      | bool b =>
        refine ⟨fun e h => ?_, fun j h => ?_⟩
        · simp [to_json] at h
        · simp [to_json] at h; rw [← h]; rfl
      | int m =>
        refine ⟨fun e h => ?_, fun j h => ?_⟩
        · simp [to_json] at h
        · simp [to_json] at h; rw [← h]; rfl
      | str s =>
        refine ⟨fun e h => ?_, fun j h => ?_⟩
        · simp [to_json] at h
        · simp [to_json] at h; rw [← h]; rfl
      | list xs =>
        have hsz : sizeOf (PyVal.list xs) = 1 + sizeOf xs := by simp
        have hxs : sizeOf xs < n := by omega
        obtain ⟨ha1, ha2⟩ := iharr xs hxs
        have heq : to_json (PyVal.list xs) = (jsonArr xs).map PyVal.list := rfl
        refine ⟨fun e h => ?_, fun j h => ?_⟩
        · rw [heq] at h
          cases hj : jsonArr xs with
          | error e' =>
            rw [hj, emap_error] at h
            injection h with h2
            rw [← h2]; exact ha1 e' hj
          | ok js => rw [hj, emap_ok] at h; exact absurd h (by simp)
        · rw [heq] at h
          cases hj : jsonArr xs with
          | error e' => rw [hj, emap_error] at h; exact absurd h (by simp)
          | ok js =>
            rw [hj, emap_ok] at h
            injection h with h2
            rw [← h2]
            exact ha2 js hj
      | dict kvs =>
        have hsz : sizeOf (PyVal.dict kvs) = 1 + sizeOf kvs := by simp
        have hk : sizeOf kvs < n := by omega
        obtain ⟨ho1, ho2⟩ := ihobj kvs hk
        have heq : to_json (PyVal.dict kvs)
            = (jsonObj kvs).map
                (fun l => PyVal.dict ((dictUpdate [] l).map (fun p => (PyVal.str p.1, p.2)))) := rfl
        refine ⟨fun e h => ?_, fun j h => ?_⟩
        · rw [heq] at h
          cases hj : jsonObj kvs with
          | error e' =>
            rw [hj, emap_error] at h
            injection h with h2
            rw [← h2]; exact ho1 e' hj
          | ok l => rw [hj, emap_ok] at h; exact absurd h (by simp)
        · rw [heq] at h
          cases hj : jsonObj kvs with
          | error e' => rw [hj, emap_error] at h; exact absurd h (by simp)
          | ok l =>
            rw [hj, emap_ok] at h
            injection h with h2
            rw [← h2]
            have hvals : ∀ p ∈ dictUpdate ([] : List (String × PyVal)) l, isJsonSafe p.2 = true :=
              dictUpdate_value_mem l [] (fun w => isJsonSafe w = true) (by simp) (ho2 l hj)
            have hnodup : ((dictUpdate ([] : List (String × PyVal)) l).map Prod.fst).Nodup :=
              dictUpdate_keys_nodup l [] (by simp)
            exact jsonSafeKVs_map_ofStr _ hvals hnodup
      | set xs =>
        have hsz : sizeOf (PyVal.set xs) = 1 + sizeOf xs := by simp
        have hxs : sizeOf xs < n := by omega
        obtain ⟨ha1, ha2⟩ := iharr xs hxs
        have heq : to_json (PyVal.set xs) = (jsonArr xs).map PyVal.list := rfl
        refine ⟨fun e h => ?_, fun j h => ?_⟩
        · rw [heq] at h
          cases hj : jsonArr xs with
          | error e' =>
            rw [hj, emap_error] at h
            injection h with h2
            rw [← h2]; exact ha1 e' hj
          | ok js => rw [hj, emap_ok] at h; exact absurd h (by simp)
        · rw [heq] at h
          cases hj : jsonArr xs with
          | error e' => rw [hj, emap_error] at h; exact absurd h (by simp)
          | ok js =>
            rw [hj, emap_ok] at h
            injection h with h2
            rw [← h2]
            exact ha2 js hj
      | obj o =>
        cases o with
        | none =>
          refine ⟨fun e h => ?_, fun j h => ?_⟩
          · have heq : to_json (PyVal.obj Option.none)
                = .error { ty := "TypeError", msg := "" } := rfl
            rw [heq] at h
            injection h with h2
            rw [← h2]
          · simp [to_json] at h
        | some s =>
          refine ⟨fun e h => ?_, fun j h => ?_⟩
          · simp [to_json] at h
          · simp [to_json] at h; rw [← h]; rfl
    · intro xs hxs
      cases xs with
      | nil =>
        refine ⟨fun e h => ?_, fun js h => ?_⟩
        · simp [jsonArr] at h
        · simp [jsonArr] at h; subst h; rfl
      | cons x rest =>
        have hsz : sizeOf (x :: rest) = 1 + sizeOf x + sizeOf rest := by simp
        have hx : sizeOf x < n := by omega
        have hr : sizeOf rest < n := by omega
        obtain ⟨hv1, hv2⟩ := ihv x hx
        obtain ⟨ha1, ha2⟩ := iharr rest hr
        have heq : jsonArr (x :: rest)
            = to_json x >>= fun y => jsonArr rest >>= fun ys => Except.ok (y :: ys) := rfl
        refine ⟨fun e h => ?_, fun js h => ?_⟩
        · rw [heq] at h
          cases hx' : to_json x with
          | error e' =>
            rw [hx', ebind_error] at h
            injection h with h2
            rw [← h2]; exact hv1 e' hx'
          | ok y =>
            rw [hx', ebind_ok] at h
            cases hr' : jsonArr rest with
            | error e' =>
              rw [hr', ebind_error] at h
              injection h with h2
              rw [← h2]; exact ha1 e' hr'
            | ok ys => rw [hr', ebind_ok] at h; exact absurd h (by simp)
        · rw [heq] at h
          cases hx' : to_json x with
          | error e' => rw [hx', ebind_error] at h; exact absurd h (by simp)
          | ok y =>
            rw [hx', ebind_ok] at h
            cases hr' : jsonArr rest with
            | error e' => rw [hr', ebind_error] at h; exact absurd h (by simp)
            | ok ys =>
              rw [hr', ebind_ok] at h
              injection h with h2
              rw [← h2]
              have hy := hv2 y hx'
              have hys := ha2 ys hr'
              show jsonSafeList (y :: ys) = true
              simp [jsonSafeList, hy, hys]
    · intro kvs hkvs
      cases kvs with
      | nil =>
        refine ⟨fun e h => ?_, fun l h => ?_⟩
        · simp [jsonObj] at h
        · simp [jsonObj] at h; subst h; intro p hp; simp at hp
      | cons kv rest =>
        obtain ⟨k, v⟩ := kv
        have hsz : sizeOf ((k, v) :: rest) = 1 + (1 + sizeOf k + sizeOf v) + sizeOf rest := by simp
        have hv' : sizeOf v < n := by omega
        have hr : sizeOf rest < n := by omega
        obtain ⟨hv1, hv2⟩ := ihv v hv'
        obtain ⟨ho1, ho2⟩ := ihobj rest hr
        have heq : jsonObj ((k, v) :: rest)
            = keyToStr k >>= fun ks => to_json v >>= fun y =>
                jsonObj rest >>= fun ys => Except.ok ((ks, y) :: ys) := rfl
        refine ⟨fun e h => ?_, fun l h => ?_⟩
        · rw [heq] at h
          cases hk' : keyToStr k with
          | error e' =>
            rw [hk', ebind_error] at h
            injection h with h2
            rw [← h2]; exact keyToStr_ty k e' hk'
          | ok ks =>
            rw [hk', ebind_ok] at h
            cases hx' : to_json v with
            | error e' =>
              rw [hx', ebind_error] at h
              injection h with h2
              rw [← h2]; exact hv1 e' hx'
            | ok y =>
              rw [hx', ebind_ok] at h
              cases hr' : jsonObj rest with
              | error e' =>
                rw [hr', ebind_error] at h
                injection h with h2
                rw [← h2]; exact ho1 e' hr'
              | ok ys => rw [hr', ebind_ok] at h; exact absurd h (by simp)
        · rw [heq] at h
          cases hk' : keyToStr k with
          | error e' => rw [hk', ebind_error] at h; exact absurd h (by simp)
          | ok ks =>
            rw [hk', ebind_ok] at h
            cases hx' : to_json v with
            | error e' => rw [hx', ebind_error] at h; exact absurd h (by simp)
            | ok y =>
              rw [hx', ebind_ok] at h
              cases hr' : jsonObj rest with
              | error e' => rw [hr', ebind_error] at h; exact absurd h (by simp)
              | ok ys =>
                rw [hr', ebind_ok] at h
                injection h with h2
                rw [← h2]
                intro p hp
                rcases List.mem_cons.mp hp with hp | hp
                · rw [hp]; exact hv2 y hx'
                · exact ho2 ys hr' p hp

/-- Strong-induction core for idempotence: on values composed solely of JSON
primitives, the sanitizer is the identity. -/
theorem json_id_aux :
    ∀ n : Nat,
      (∀ v : PyVal, sizeOf v < n → isJsonSafe v = true → to_json v = .ok v)
      ∧ (∀ xs : List PyVal, sizeOf xs < n → jsonSafeList xs = true → jsonArr xs = .ok xs)
      ∧ (∀ kvs : List (PyVal × PyVal), sizeOf kvs < n → jsonSafeKVs kvs = true →
          ∃ l, jsonObj kvs = .ok l
            ∧ (l.map Prod.fst).Nodup
            ∧ l.map (fun p => (PyVal.str p.1, p.2)) = kvs) := by
  intro n
  induction n with
  | zero =>
    exact ⟨fun v h => absurd h (Nat.not_lt_zero _),
           fun xs h => absurd h (Nat.not_lt_zero _),
           fun kvs h => absurd h (Nat.not_lt_zero _)⟩
  | succ n ih =>
    obtain ⟨ihv, iharr, ihobj⟩ := ih
    refine ⟨?_, ?_, ?_⟩
    · intro v hv hsafe
      cases v with
      | none => rfl
      | bool b => rfl
      | int m => rfl
      | str s => rfl
      | list xs =>
        have hsz : sizeOf (PyVal.list xs) = 1 + sizeOf xs := by simp
        have hxs : sizeOf xs < n := by omega
        have harr := iharr xs hxs hsafe
        show (jsonArr xs).map PyVal.list = .ok (.list xs)
        rw [harr, emap_ok]
      | dict kvs =>
        have hsz : sizeOf (PyVal.dict kvs) = 1 + sizeOf kvs := by simp
        have hk : sizeOf kvs < n := by omega
        obtain ⟨l, hobj, hnd, hmap⟩ := ihobj kvs hk hsafe
        show (jsonObj kvs).map
            (fun l => PyVal.dict ((dictUpdate [] l).map (fun p => (PyVal.str p.1, p.2))))
          = .ok (.dict kvs)
        rw [hobj, emap_ok, dictUpdate_nil_of_nodup l hnd, hmap]
      | set xs => exact absurd hsafe (by simp [isJsonSafe])
      | obj o => exact absurd hsafe (by simp [isJsonSafe])
    · intro xs hxs hsafe
      cases xs with
      | nil => rfl
      | cons x rest =>
        have hsz : sizeOf (x :: rest) = 1 + sizeOf x + sizeOf rest := by simp
        have hx : sizeOf x < n := by omega
        have hr : sizeOf rest < n := by omega
        have hsafe' : isJsonSafe x = true ∧ jsonSafeList rest = true := by
          rw [← Bool.and_eq_true]; exact hsafe
        have h1 := ihv x hx hsafe'.1
        have h2 := iharr rest hr hsafe'.2
        show (to_json x >>= fun y => jsonArr rest >>= fun ys => Except.ok (y :: ys))
          = .ok (x :: rest)
        rw [h1, ebind_ok, h2, ebind_ok]
    · intro kvs hkvs hsafe
      cases kvs with
      | nil => exact ⟨[], rfl, by simp, rfl⟩
      | cons kv rest =>
        obtain ⟨k, v⟩ := kv
        have hsz : sizeOf ((k, v) :: rest) = 1 + (1 + sizeOf k + sizeOf v) + sizeOf rest := by
          simp
        have hv' : sizeOf v < n := by omega
        have hr : sizeOf rest < n := by omega
        have hs : ((strKey k).isSome && rest.all (fun p => strKey p.1 != strKey k)
            && isJsonSafe v && jsonSafeKVs rest) = true := hsafe
        rw [Bool.and_eq_true, Bool.and_eq_true, Bool.and_eq_true] at hs
        obtain ⟨⟨⟨hk1, hk2⟩, hk3⟩, hk4⟩ := hs
        obtain ⟨s, hks⟩ : ∃ s, k = PyVal.str s := by
          rcases k with _ | b | m | s | xs | kvs' | xs | o <;>
            first
            | exact ⟨_, rfl⟩
            | simp [strKey] at hk1
        subst hks
        have hjv := ihv v hv' hk3
        obtain ⟨l', hobj, hnd, hmap⟩ := ihobj rest hr hk4
        refine ⟨(s, v) :: l', ?_, ?_, ?_⟩
        · show (keyToStr (.str s) >>= fun ks => to_json v >>= fun y =>
              jsonObj rest >>= fun ys => Except.ok ((ks, y) :: ys)) = .ok ((s, v) :: l')
          rw [show keyToStr (.str s) = .ok s from rfl, ebind_ok, hjv, ebind_ok, hobj, ebind_ok]
        · rw [List.map_cons, List.nodup_cons]
          refine ⟨?_, hnd⟩
          intro hmem
          obtain ⟨q, hq, hqs⟩ := List.mem_map.mp hmem
          have hqrest : (PyVal.str q.1, q.2) ∈ rest := by
            rw [← hmap]; exact List.mem_map.mpr ⟨q, hq, rfl⟩
          have hne := (List.all_eq_true.mp hk2) _ hqrest
          simp [strKey] at hne
          exact hne hqs
        · rw [List.map_cons, hmap]

/-- Claim C1: for every input value, the sanitizer (`to_json`, the spec's
`normalize`) either returns a value composed solely of JSON primitives
(null, boolean, number, string, ordered sequence, mapping with string keys)
or raises the serialization error — realized in the code as `TypeError`,
the only exception class any node of the recursion can raise. -/
theorem to_json_ok_or_typeerror (v : PyVal) :
    (∃ j, to_json v = .ok j ∧ isJsonSafe j = true)
    ∨ (∃ e, to_json v = .error e ∧ e.ty = "TypeError") := by
  have h := (json_shape_aux (sizeOf v + 1)).1 v (by omega)
  cases hj : to_json v with
  | ok j => exact Or.inl ⟨j, rfl, h.2 j hj⟩
  | error e => exact Or.inr ⟨e, rfl, h.1 e hj⟩

/-- Claim C8: for every output value composed only of JSON primitives, the
sanitizer returns a value equal to its input: `normalize(output) == output`. -/
theorem to_json_id_on_json_safe (v : PyVal) (h : isJsonSafe v = true) :
    to_json v = .ok v :=
  (json_id_aux (sizeOf v + 1)).1 v (by omega) h

/-- Witness for C8 at a concrete JSON-primitive value. -/
theorem to_json_id_on_json_safe_witness :
    isJsonSafe (.dict [(.str "a", .int 1), (.str "b", .list [.none, .bool true, .str "x"])])
      = true
    ∧ to_json (.dict [(.str "a", .int 1), (.str "b", .list [.none, .bool true, .str "x"])])
        = .ok (.dict [(.str "a", .int 1), (.str "b", .list [.none, .bool true, .str "x"])]) :=
  ⟨rfl, to_json_id_on_json_safe _ rfl⟩

/-- Claim C9: the sanitizer converts a set-like non-native container node
into an ordered sequence (list) containing the same elements in the
container's deterministic iteration order, with elements recursively
normalized (elementwise `to_json` via `jsonArr`); in particular an
invocation whose `main` returns the set `{1,2,3}` yields body `[1,2,3]`. -/
theorem to_json_set_to_list (xs : List PyVal) :
    to_json (PyVal.set xs) = to_json (PyVal.list xs)
    ∧ to_json (PyVal.set xs) = (jsonArr xs).map PyVal.list
    ∧ (handler (fun _ _ => ⟨200, "code"⟩)
        (fun _ => ⟨fun s => (Option.none, s), true,
          fun _ s => (.ok (.set [.int 1, .int 2, .int 3]), s)⟩)
        "" ⟨some .none, some "https://good.example/a.script", Option.none⟩ ⟨"rid"⟩ ⟨[], []⟩).1
      = .success 200 (.list [.int 1, .int 2, .int 3]) :=
  ⟨rfl, rfl, rfl⟩

/-! Environment filter: spec-side characterisation and the C3 property. -/

/-- A substring of `k` equals the pattern up to case: the spec's
"contains the substring in any case combination". -/
theorem upper_infix_iff (pat k : List Char) :
    pat <:+: upper k ↔ ∃ m, m <:+: k ∧ upper m = pat := by
  constructor
  · rintro ⟨s, t, hst⟩
    have hmap : List.map Char.toUpper k = s ++ (pat ++ t) := by
      rw [← List.append_assoc]; exact hst.symm
    rw [List.map_eq_append_iff] at hmap
    obtain ⟨l₁, l₂, hk, hl₁, hl₂⟩ := hmap
    rw [List.map_eq_append_iff] at hl₂
    obtain ⟨m, r, hl₂', hm, hr⟩ := hl₂
    refine ⟨m, ⟨l₁, r, ?_⟩, hm⟩
    rw [hk, hl₂', List.append_assoc]
  · rintro ⟨m, hm, rfl⟩
    exact List.IsInfix.map Char.toUpper hm

/-- The spec-side exclusion condition coincides with the code's filter
predicate being false. -/
theorem specExcludedKey_iff (k : String) :
    specExcludedKey k ↔ envKeyAllowed k = false := by
  have hA : containsPat k "AWS" = true ↔ ∃ m, m <:+: k.toList ∧ upper m = "AWS".toList := by
    rw [containsPat, decide_eq_true_iff]
    rw [show upper "AWS".toList = "AWS".toList from rfl]
    exact upper_infix_iff _ _
  have hK : containsPat k "KEY" = true ↔ ∃ m, m <:+: k.toList ∧ upper m = "KEY".toList := by
    rw [containsPat, decide_eq_true_iff]
    rw [show upper "KEY".toList = "KEY".toList from rfl]
    exact upper_infix_iff _ _
  have hall : envKeyAllowed k = (!containsPat k "AWS" && !containsPat k "KEY") := by
    show (["AWS", "KEY"].all fun pat => !containsPat k pat) = _
    simp [List.all_cons, List.all_nil]
  constructor
  · rintro ⟨m, hm, h | h⟩
    · have hc : containsPat k "AWS" = true := hA.mpr ⟨m, hm, h⟩
      rw [hall, hc]; rfl
    · have hc : containsPat k "KEY" = true := hK.mpr ⟨m, hm, h⟩
      rw [hall, hc]; simp
  · intro h
    by_cases ha : containsPat k "AWS" = true
    · obtain ⟨m, hm, hup⟩ := hA.mp ha
      exact ⟨m, hm, Or.inl hup⟩
    · by_cases hb : containsPat k "KEY" = true
      · obtain ⟨m, hm, hup⟩ := hK.mp hb
        exact ⟨m, hm, Or.inr hup⟩
      · exfalso
        rw [Bool.not_eq_true] at ha hb
        rw [hall, ha, hb] at h
        simp at h

/-- Claim C3: for every key of the environment snapshot, if the key contains
`"aws"` or `"key"` in any case combination then it is absent from the
filtered environment installed by `NewEnv.__enter__`; every other snapshot
key is present there with its value unchanged. -/
theorem env_filter_spec (snapshot : Dict) (hnd : (snapshot.map Prod.fst).Nodup)
    (k v : String) (hmem : (k, v) ∈ snapshot) :
    (specExcludedKey k → ∀ v', (k, v') ∉ enterEnv snapshot)
    ∧ (¬ specExcludedKey k → (k, v) ∈ enterEnv snapshot) := by
  have hfilnd : ((filteredEnv snapshot).map Prod.fst).Nodup := by
    have hsub : List.Sublist ((filteredEnv snapshot).map Prod.fst)
        (snapshot.map Prod.fst) :=
      List.Sublist.map Prod.fst (List.filter_sublist snapshot)
    exact hnd.sublist hsub
  have henter : enterEnv snapshot = filteredEnv snapshot :=
    dictUpdate_nil_of_nodup _ hfilnd
  constructor
  · intro hex v' hmem'
    rw [henter] at hmem'
    have hallow := (List.mem_filter.mp hmem').2
    rw [specExcludedKey_iff] at hex
    simp only at hallow
    rw [hex] at hallow
    simp at hallow
  · intro hnex
    rw [henter]
    apply List.mem_filter.mpr
    refine ⟨hmem, ?_⟩
    show envKeyAllowed k = true
    cases henv : envKeyAllowed k with
    | true => rfl
    | false => exact absurd ((specExcludedKey_iff k).mpr henv) hnex

/-- Witness for C3: `"HOME"` is not excluded and survives the filter in a
snapshot that also holds an excluded `"aws_token"`. -/
theorem env_filter_spec_witness :
    ((([("aws_token", "t"), ("HOME", "/root")] : Dict).map Prod.fst).Nodup
      ∧ ("HOME", "/root") ∈ ([("aws_token", "t"), ("HOME", "/root")] : Dict))
    ∧ ((specExcludedKey "HOME" →
          ∀ v', ("HOME", v') ∉ enterEnv [("aws_token", "t"), ("HOME", "/root")])
        ∧ (¬ specExcludedKey "HOME" →
          ("HOME", "/root") ∈ enterEnv [("aws_token", "t"), ("HOME", "/root")])) :=
  ⟨⟨by decide, by decide⟩, env_filter_spec _ (by decide) _ _ (by decide)⟩

/-! With-block and handler reduction lemmas. -/

theorem withNewEnv_env (body : St → Except PyExc PyVal × St) (st : St) :
    ((withNewEnv body st).2).env = restoreEnv st.env := by
  unfold withNewEnv
  rcases hb : body { st with env := enterEnv st.env } with ⟨res, st2⟩
  rcases hc : cleanupTmp st2.tmp with ⟨r, rem⟩
  cases r <;> simp [hb, hc]

theorem handler_snd (f : String → Dict → HttpResponse) (c : String → Script)
    (a : String) (ev : Event) (ctx : Context) (st : St) :
    (handler f c a ev ctx st).2 = (withNewEnv (innerBody f c a ev) st).2 := by
  unfold handler
  rcases h : withNewEnv (innerBody f c a ev) st with ⟨res, st'⟩
  cases res <;> simp

theorem withNewEnv_error_of (body : St → Except PyExc PyVal × St) (st : St)
    (e : PyExc) (st2 : St)
    (hb : body (entered st) = (.error e, st2))
    (hclean : (cleanupTmp st2.tmp).1 = Option.none) :
    (withNewEnv body st).1 = .error e := by
  have hb' : body { env := enterEnv st.env, tmp := st.tmp } = (.error e, st2) := hb
  unfold withNewEnv
  dsimp only
  rw [hb']
  dsimp only
  rcases hc : cleanupTmp st2.tmp with ⟨r, rem⟩
  rw [hc] at hclean
  simp only at hclean
  subst hclean
  rfl

theorem withNewEnv_error_any (body : St → Except PyExc PyVal × St) (st : St)
    (e : PyExc) (st2 : St)
    (hb : body (entered st) = (.error e, st2)) :
    ∃ e', (withNewEnv body st).1 = .error e' := by
  have hb' : body { env := enterEnv st.env, tmp := st.tmp } = (.error e, st2) := hb
  unfold withNewEnv
  dsimp only
  rw [hb']
  dsimp only
  rcases hc : cleanupTmp st2.tmp with ⟨r, rem⟩
  cases r with
  | none => exact ⟨e, rfl⟩
  | some e' => exact ⟨e', rfl⟩

theorem handler_failure_of (f : String → Dict → HttpResponse) (c : String → Script)
    (a : String) (ev : Event) (ctx : Context) (st : St) (e : PyExc) (st2 : St)
    (hb : innerBody f c a ev (entered st) = (.error e, st2))
    (hclean : (cleanupTmp st2.tmp).1 = Option.none) :
    (handler f c a ev ctx st).1
      = .failure 400 ⟨e.msg, e.ty, [], ctx.aws_request_id⟩ := by
  have hw := withNewEnv_error_of _ _ _ _ hb hclean
  unfold handler
  rcases h : withNewEnv (innerBody f c a ev) st with ⟨res, st'⟩
  rw [h] at hw
  simp only at hw
  subst hw
  simp

theorem handler_failure_any (f : String → Dict → HttpResponse) (c : String → Script)
    (a : String) (ev : Event) (ctx : Context) (st : St) (e : PyExc) (st2 : St)
    (hb : innerBody f c a ev (entered st) = (.error e, st2)) :
    ∃ m t, (handler f c a ev ctx st).1 = .failure 400 ⟨m, t, [], ctx.aws_request_id⟩ := by
  obtain ⟨e', hw⟩ := withNewEnv_error_any _ _ _ _ hb
  refine ⟨e'.msg, e'.ty, ?_⟩
  unfold handler
  rcases h : withNewEnv (innerBody f c a ev) st with ⟨res, st'⟩
  rw [h] at hw
  simp only at hw
  subst hw
  simp

/-! Reduction of the with-block body under explicit hypotheses. -/

theorem innerBody_missing_inputs (f : String → Dict → HttpResponse) (c : String → Script)
    (a : String) (ev : Event) (st : St) (h : ev.inputs = Option.none) :
    innerBody f c a ev st = (.error (keyError "inputs"), st) := by
  unfold innerBody
  rw [h]

theorem innerBody_missing_url (f : String → Dict → HttpResponse) (c : String → Script)
    (a : String) (ev : Event) (st : St) (i : PyVal)
    (h1 : ev.inputs = some i) (h2 : ev.url = Option.none) :
    innerBody f c a ev st = (.error (keyError "url"), st) := by
  unfold innerBody
  rw [h1, h2]

theorem innerBody_fetch_fail (f : String → Dict → HttpResponse) (c : String → Script)
    (a : String) (ev : Event) (st : St) (i : PyVal) (u : String)
    (h1 : ev.inputs = some i) (h2 : ev.url = some u)
    (hs : (f u (ev.headers.getD (defaultHeaders a))).status ≠ 200) :
    innerBody f c a ev st
      = (.error (assertionError
          (fetchFailMsg (f u (ev.headers.getD (defaultHeaders a))).data)), st) := by
  unfold innerBody
  rw [h1, h2]
  simp [hs]

theorem innerBody_run_error (f : String → Dict → HttpResponse) (c : String → Script)
    (a : String) (ev : Event) (st : St) (i : PyVal) (u : String) (st' st2 : St) (e : PyExc)
    (h1 : ev.inputs = some i) (h2 : ev.url = some u)
    (hs : (f u (ev.headers.getD (defaultHeaders a))).status = 200)
    (hload : (c (f u (ev.headers.getD (defaultHeaders a))).data).load st
      = (Option.none, st'))
    (hmain : (c (f u (ev.headers.getD (defaultHeaders a))).data).hasMain = true)
    (hrun : (c (f u (ev.headers.getD (defaultHeaders a))).data).run i st'
      = (.error e, st2)) :
    innerBody f c a ev st = (.error e, st2) := by
  unfold innerBody
  rw [h1, h2]
  simp [hs, hload, hmain, hrun]

/-- Claim C2: whenever `NewEnv.__enter__` runs, then after `__exit__` the
live environment mapping equals the snapshot captured at entry — for every
behaviour of the executed script (arbitrary environment and scratch-space
mutations in `exec` and in `main`, normal return or raised exception) and
on every exit path of the handler. -/
theorem env_restored_after_handler (fetchFn : String → Dict → HttpResponse)
    (compile : String → Script) (apiKey : String) (event : Event) (ctx : Context)
    (st : St) (hnd : (st.env.map Prod.fst).Nodup) :
    ((handler fetchFn compile apiKey event ctx st).2).env = st.env := by
  rw [handler_snd, withNewEnv_env]
  exact dictUpdate_nil_of_nodup _ hnd

/-- Witness for C2: a script that overwrites the environment, then raises;
the original environment (secrets included) is restored verbatim. -/
theorem env_restored_after_handler_witness :
    ((([("HOME", "/root"), ("AWS_KEY", "s")] : Dict).map Prod.fst).Nodup)
    ∧ ((handler (fun _ _ => ⟨200, "c"⟩)
        (fun _ => ⟨fun s => (Option.none, { s with env := [("INJECTED", "1")] }), true,
          fun _ s => (.error ⟨"ValueError", "boom"⟩, { s with env := [] })⟩)
        "" ⟨some .none, some "u", Option.none⟩ ⟨"rid"⟩
        ⟨[("HOME", "/root"), ("AWS_KEY", "s")], []⟩).2).env
      = [("HOME", "/root"), ("AWS_KEY", "s")] :=
  ⟨by decide, env_restored_after_handler _ _ _ _ _ _ (by decide)⟩

/-- Claim C7: every error arising during an invocation is caught at the
outermost boundary: the handler always returns either a success response
with status 200 or the uniform failure shape with status 400, empty
`stackTrace` and the host-supplied request id — never an uncaught fault. -/
theorem handler_response_shape (fetchFn : String → Dict → HttpResponse)
    (compile : String → Script) (apiKey : String) (event : Event) (ctx : Context)
    (st : St) :
    (∃ b, (handler fetchFn compile apiKey event ctx st).1 = .success 200 b)
    ∨ (∃ m t, (handler fetchFn compile apiKey event ctx st).1
        = .failure 400 ⟨m, t, [], ctx.aws_request_id⟩) := by
  unfold handler
  rcases h : withNewEnv (innerBody fetchFn compile apiKey event) st with ⟨res, st'⟩
  cases res with
  | ok b => exact Or.inl ⟨b, by simp⟩
  | error e => exact Or.inr ⟨e.msg, e.ty, by simp⟩

/-- Claim C10: an event mapping lacking the `inputs` key or the `url` key
produces the structured failure response with status 400 (the `KeyError`
is caught by the outer handler) instead of an uncaught fault. -/
theorem missing_key_failure (fetchFn : String → Dict → HttpResponse)
    (compile : String → Script) (apiKey : String) (event : Event) (ctx : Context)
    (st : St) (h : event.inputs = Option.none ∨ event.url = Option.none) :
    ∃ m t, (handler fetchFn compile apiKey event ctx st).1
      = .failure 400 ⟨m, t, [], ctx.aws_request_id⟩ := by
  cases hi : event.inputs with
  | none =>
    exact handler_failure_any _ _ _ _ _ _ _ _
      (innerBody_missing_inputs _ _ _ _ _ hi)
  | some i =>
    rcases h with h | h
    · exact absurd hi (h ▸ by simp)
    · exact handler_failure_any _ _ _ _ _ _ _ _
        (innerBody_missing_url _ _ _ _ _ i hi h)

/-- Witness for C10 at an event without `inputs`. -/
theorem missing_key_failure_witness :
    ((⟨Option.none, some "u", Option.none⟩ : Event).inputs = Option.none
      ∨ (⟨Option.none, some "u", Option.none⟩ : Event).url = Option.none)
    ∧ ∃ m t, (handler (fun _ _ => ⟨200, "c"⟩)
        (fun _ => ⟨fun s => (Option.none, s), true, fun _ s => (.ok .none, s)⟩)
        "" ⟨Option.none, some "u", Option.none⟩ ⟨"rid"⟩ ⟨[], []⟩).1
      = .failure 400 ⟨m, t, [], "rid"⟩ :=
  ⟨Or.inl rfl, missing_key_failure _ _ _ _ _ _ (Or.inl rfl)⟩

/-- Counterexample to claim C4 as stated: with a fetch returning status 404
and body `"nope"`, the failure message is exactly
`"Failed to fetch app code: nope\n"` — it contains the body but not the
response status `404`, although the claim asserts the message includes
both. -/
theorem fetch_fail_message_counterexample :
    (handler (fun _ _ => ⟨404, "nope"⟩)
      (fun _ => ⟨fun s => (Option.none, s), true, fun _ s => (.ok .none, s)⟩)
      "" ⟨some .none, some "u", Option.none⟩ ⟨"rid"⟩ ⟨[], []⟩).1
      = .failure 400 ⟨"Failed to fetch app code: nope\n", "AssertionError", [], "rid"⟩
    ∧ ¬ ((toString (404 : Nat)).toList
        <:+: ("Failed to fetch app code: nope\n").toList) :=
  ⟨rfl, by decide⟩

/-- Claim C4 (amended): a fetch returning a status other than 200 yields the
failure response with status 400, classified as the fetch-failure assert
(`AssertionError` with the fixed prefix), whose message includes the
response body content — but not the response status. -/
theorem fetch_fail_response (fetchFn : String → Dict → HttpResponse)
    (compile : String → Script) (apiKey : String) (event : Event) (ctx : Context)
    (st : St) (i : PyVal) (u : String)
    (h1 : event.inputs = some i) (h2 : event.url = some u)
    (hs : (fetchFn u (event.headers.getD (defaultHeaders apiKey))).status ≠ 200)
    (hclean : (cleanupTmp st.tmp).1 = Option.none) :
    (handler fetchFn compile apiKey event ctx st).1
      = .failure 400
          ⟨fetchFailMsg (fetchFn u (event.headers.getD (defaultHeaders apiKey))).data,
            "AssertionError", [], ctx.aws_request_id⟩
    ∧ (fetchFn u (event.headers.getD (defaultHeaders apiKey))).data.toList
        <:+: (fetchFailMsg (fetchFn u (event.headers.getD (defaultHeaders apiKey))).data).toList := by
  constructor
  · exact handler_failure_of _ _ _ _ _ _ _ _
      (innerBody_fetch_fail _ _ _ _ (entered st) i u h1 h2 hs) hclean
  · refine ⟨"Failed to fetch app code: ".toList, "\n".toList, ?_⟩
    simp [fetchFailMsg]

/-- Witness for C4 (amended) at a concrete 404 response. -/
theorem fetch_fail_response_witness :
    ((⟨some .none, some "u", Option.none⟩ : Event).inputs = some .none
      ∧ (⟨some .none, some "u", Option.none⟩ : Event).url = some "u"
      ∧ ((fun (_ : String) (_ : Dict) => (⟨404, "nope"⟩ : HttpResponse)) "u"
          ((⟨some .none, some "u", Option.none⟩ : Event).headers.getD (defaultHeaders ""))).status ≠ 200
      ∧ (cleanupTmp (⟨[], []⟩ : St).tmp).1 = Option.none)
    ∧ ((handler (fun _ _ => ⟨404, "nope"⟩)
        (fun _ => ⟨fun s => (Option.none, s), true, fun _ s => (.ok .none, s)⟩)
        "" ⟨some .none, some "u", Option.none⟩ ⟨"rid"⟩ ⟨[], []⟩).1
      = .failure 400
          ⟨fetchFailMsg "nope", "AssertionError", [], "rid"⟩
      ∧ ("nope" : String).toList <:+: (fetchFailMsg "nope").toList) :=
  ⟨⟨rfl, rfl, by decide, rfl⟩,
    fetch_fail_response _ _ _ _ _ _ _ _ rfl rfl (by decide) rfl⟩

/-- Counterexample to claim C6 as stated: a `main` raising
`ValueError("boom")` produces `errorType = "ValueError"`, not a
`RuntimeError` wrapper — the exception propagates unchanged. -/
theorem main_exception_not_wrapped_counterexample :
    (handler (fun _ _ => ⟨200, "c"⟩)
      (fun _ => ⟨fun s => (Option.none, s), true,
        fun _ s => (.error ⟨"ValueError", "boom"⟩, s)⟩)
      "" ⟨some .none, some "u", Option.none⟩ ⟨"rid"⟩ ⟨[], []⟩).1
      = .failure 400 ⟨"boom", "ValueError", [], "rid"⟩
    ∧ ("ValueError" : String) ≠ "RuntimeError" :=
  ⟨rfl, by decide⟩

/-- Claim C6 (amended): an exception raised inside `main` propagates
unchanged (no `RuntimeError` wrapping); the failure response carries
status 400, the exception's own type name as `errorType`, its message as
`errorMessage`, an empty `stackTrace` and the host request id. -/
theorem main_exception_response (fetchFn : String → Dict → HttpResponse)
    (compile : String → Script) (apiKey : String) (event : Event) (ctx : Context)
    (st : St) (i : PyVal) (u : String) (st' st2 : St) (e : PyExc)
    (h1 : event.inputs = some i) (h2 : event.url = some u)
    (hs : (fetchFn u (event.headers.getD (defaultHeaders apiKey))).status = 200)
    (hload : (compile (fetchFn u (event.headers.getD (defaultHeaders apiKey))).data).load
      (entered st) = (Option.none, st'))
    (hmain : (compile (fetchFn u (event.headers.getD (defaultHeaders apiKey))).data).hasMain
      = true)
    (hrun : (compile (fetchFn u (event.headers.getD (defaultHeaders apiKey))).data).run i st'
      = (.error e, st2))
    (hclean : (cleanupTmp st2.tmp).1 = Option.none) :
    (handler fetchFn compile apiKey event ctx st).1
      = .failure 400 ⟨e.msg, e.ty, [], ctx.aws_request_id⟩ :=
  handler_failure_of _ _ _ _ _ _ _ _
    (innerBody_run_error _ _ _ _ (entered st) i u st' st2 e h1 h2 hs hload hmain hrun)
    hclean

/-- Witness for C6 (amended) at a concrete raising script. -/
theorem main_exception_response_witness :
    ((⟨some .none, some "u", Option.none⟩ : Event).inputs = some .none
      ∧ (cleanupTmp (⟨[], []⟩ : St).tmp).1 = Option.none)
    ∧ (handler (fun _ _ => ⟨200, "c"⟩)
        (fun _ => ⟨fun s => (Option.none, s), true,
          fun _ s => (.error ⟨"TimeoutExc", "too slow"⟩, s)⟩)
        "" ⟨some .none, some "u", Option.none⟩ ⟨"rid"⟩ ⟨[], []⟩).1
      = .failure 400 ⟨"too slow", "TimeoutExc", [], "rid"⟩ :=
  ⟨⟨rfl, rfl⟩,
    main_exception_response (fun _ _ => ⟨200, "c"⟩)
      (fun _ => ⟨fun s => (Option.none, s), true,
        fun _ s => (.error ⟨"TimeoutExc", "too slow"⟩, s)⟩)
      "" ⟨some .none, some "u", Option.none⟩ ⟨"rid"⟩ ⟨[], []⟩ .none "u"
      ⟨[], []⟩ ⟨[], []⟩ ⟨"TimeoutExc", "too slow"⟩ rfl rfl rfl rfl rfl rfl rfl⟩

/-- Counterexample to claim C5 as stated: a file under `/tmp` whose
`remove` fails makes `__exit__` raise — the deletion error is not
suppressed, and (second conjunct) it masks the invocation's real result:
a script that successfully returned `7` is reported as a
`PermissionError` failure. -/
theorem cleanup_raises_counterexample :
    (cleanupTmp [.file "f" (some ⟨"PermissionError", "denied"⟩)]).1
      = some ⟨"PermissionError", "denied"⟩
    ∧ (handler (fun _ _ => ⟨200, "c"⟩)
        (fun _ => ⟨fun s => (Option.none, s), true, fun _ s => (.ok (.int 7), s)⟩)
        "" ⟨some .none, some "u", Option.none⟩ ⟨"rid"⟩
        ⟨[], [.file "f" (some ⟨"PermissionError", "denied"⟩)]⟩).1
      = .failure 400 ⟨"denied", "PermissionError", [], "rid"⟩ :=
  ⟨rfl, rfl⟩

/-- Claim C5 (amended): during `__exit__` cleanup, directory deletions use
`ignore_errors=True` and never raise, but file deletions are unprotected:
only when no file delete fails does `__exit__` raise nothing; and when
additionally every directory is deletable, the scratch directory is left
empty. -/
theorem cleanup_ok_of_files_ok (l : List TmpEntry) (h : filesRemovable l = true) :
    (cleanupTmp l).1 = Option.none
    ∧ (dirsRemovable l = true → cleanupTmp l = (Option.none, [])) := by
  induction l with
  | nil => exact ⟨rfl, fun _ => rfl⟩
  | cons ent rest ih =>
    cases ent with
    | file n err =>
      cases err with
      | none =>
        have hr : filesRemovable rest = true := by
          have h2 : (Option.isNone (Option.none : Option PyExc) && filesRemovable rest)
              = true := h
          simpa using h2
        obtain ⟨ih1, ih2⟩ := ih hr
        refine ⟨ih1, fun hd => ?_⟩
        have hd' : dirsRemovable rest = true := by
          have h2 : (true && dirsRemovable rest) = true := hd
          simpa using h2
        exact ih2 hd'
      | some e =>
        exfalso
        have h2 : (Option.isNone (some e) && filesRemovable rest) = true := h
        simp at h2
    | dir n b =>
      have hr : filesRemovable rest = true := by
        have h2 : (true && filesRemovable rest) = true := h
        simpa using h2
      obtain ⟨ih1, ih2⟩ := ih hr
      cases b with
      | true =>
        refine ⟨ih1, fun hd => ?_⟩
        have hd' : dirsRemovable rest = true := by
          have h2 : (true && dirsRemovable rest) = true := hd
          simpa using h2
        exact ih2 hd'
      | false =>
        constructor
        · show (cleanupTmp (TmpEntry.dir n false :: rest)).1 = Option.none
          rcases hc : cleanupTmp rest with ⟨r, rem⟩
          rw [hc] at ih1
          simp only at ih1
          subst ih1
          show ((let (r, rem) := cleanupTmp rest; (r, TmpEntry.dir n false :: rem)) :
              Option PyExc × List TmpEntry).1 = Option.none
          rw [hc]
        · intro hd
          exfalso
          have h2 : (false && dirsRemovable rest) = true := hd
          simp at h2

/-- Witness for C5 (amended): an undeletable directory raises nothing. -/
theorem cleanup_ok_of_files_ok_witness :
    filesRemovable [.dir "d" false, .file "f" Option.none] = true
    ∧ ((cleanupTmp [.dir "d" false, .file "f" Option.none]).1 = Option.none
      ∧ (dirsRemovable [.dir "d" false, .file "f" Option.none] = true →
          cleanupTmp [.dir "d" false, .file "f" Option.none] = (Option.none, []))) :=
  ⟨rfl, cleanup_ok_of_files_ok _ rfl⟩

end App
